import Mathlib

/-!
Verification of the socketio server core (`socketio.go`,
`transport_flashsocket.go`) against its natural-language specification.
The Go functions are shallowly embedded as executable Lean definitions;
strings are modelled at the character level (the repository only ever
manipulates ASCII paths, origins and header values).
-/

namespace Socketio

/-- Splits a character list at every occurrence of `sep`, keeping empty
pieces, mirroring Go `strings.Split(s, sep, -1)` for a one-character
separator. -/
def splitChar (sep : Char) : List Char → List (List Char)
  | [] => [[]]
  | c :: rest =>
    match splitChar sep rest with
    | [] => [[]]
    | h :: t => if c = sep then [] :: h :: t else (c :: h) :: t

/-- Splits a character list at the first occurrence of `sep` only,
mirroring Go `strings.Split(s, sep, 2)` for a one-character separator. -/
def split2Char (sep : Char) : List Char → List (List Char)
  | [] => [[]]
  | c :: rest =>
    if c = sep then [[], rest]
    else
      match split2Char sep rest with
      | [] => [[c]]
      | h :: t => (c :: h) :: t

/-- Index of the rightmost occurrence of `sub` in a list, mirroring Go
`strings.LastIndex`; `none` plays the role of Go's `-1`. -/
def lastIndexChar (sub : List Char) : List Char → Option Nat
  | [] => if sub.isPrefixOf ([] : List Char) then some 0 else none
  | c :: rest =>
    match lastIndexChar sub rest with
    | some i => some (i + 1)
    | none => if sub.isPrefixOf (c :: rest) then some 0 else none

/-- Go `strings.Split(s, sep, -1)` on strings. -/
def goSplit (s : String) (sep : Char) : List String :=
  (splitChar sep s.data).map String.mk

/-- Go `strings.Split(s, sep, 2)` on strings. -/
def goSplit2 (s : String) (sep : Char) : List String :=
  (split2Char sep s.data).map String.mk

/-- Go `strings.LastIndex` on strings. -/
def lastIndexStr (s sub : String) : Option Nat :=
  lastIndexChar sub.data s.data

/-- Session identifiers are opaque strings. -/
abbrev SessionID := String

/-- Connections are modelled by their identity only (`*Conn` pointers in
the source are compared by identity in `handle` and `BroadcastExcept`). -/
abbrev Conn := Nat

/-- The pieces of a parsed URL that `verifyOrigin` consults: `url.Scheme`
and `url.Host` of the Go `http.ParseURL` result. Parsing itself is Go
standard-library code and is kept abstract (a parameter of type
`String → Option Url`, `none` modelling a parse error). -/
structure Url where
  scheme : String
  host : String
deriving DecidableEq

/-- The configured origin allow-list, `sio.config.Origins`; `none`
models a nil slice. -/
abbrev Origins := Option (List String)

/-- One iteration body of the loop in `SocketIO.verifyOrigin`: does the
allow-list entry `entry` accept a request origin whose `url.Host` split
at the first colon is `hostParts` and whose scheme is `scheme`?
Transcribed from src/socketio.go lines 351-372. -/
def entryMatches (scheme : String) (hostParts : List String) (entry : String) : Bool :=
  match goSplit2 entry ':' with
  | [oh] => oh == "*" || oh == hostParts.headD ""
  | [oh, op] =>
    (oh == "*" || oh == hostParts.headD "") &&
    (op == "*" ||
      (match hostParts with
       | [_] =>
         match scheme with
         | "http" => op == "80"
         | "ws" => op == "80"
         | "https" => op == "443"
         | "wss" => op == "443"
         | _ => false
       | _ :: hp :: _ => op == hp
       | [] => false))
  | _ => false

/-- The loop of `SocketIO.verifyOrigin`: first matching entry is
returned with `true`, otherwise `("", false)`. -/
def findOriginMatch (scheme : String) (hostParts : List String) : List String → String × Bool
  | [] => ("", false)
  | o :: os =>
    if entryMatches scheme hostParts o then (o, true)
    else findOriginMatch scheme hostParts os

/-- Embeds `SocketIO.verifyOrigin` (src/socketio.go lines 339-376): nil
allow-list, unparseable origin and empty host are rejected up front,
then the allow-list is scanned. -/
def verifyOrigin (origins : Origins) (parseUrl : String → Option Url)
    (reqOrigin : String) : String × Bool :=
  match origins with
  | none => ("", false)
  | some os =>
    match parseUrl reqOrigin with
    | none => ("", false)
    | some url =>
      if url.host = "" then ("", false)
      else findOriginMatch url.scheme (goSplit2 url.host ':') os

/-- Host component of the parsed request origin, as the claim reads it:
the part of `url.Host` before the first colon. -/
def specOriginHost (u : Url) : String :=
  (goSplit2 u.host ':').headD ""

/-- Port component of the parsed request origin, when `url.Host`
carries one. -/
def specOriginPort (u : Url) : Option String :=
  match goSplit2 u.host ':' with
  | [_, p] => some p
  | _ => none

/-- Port inferred from the scheme when the origin URL omits one
(http/ws ⇒ 80, https/wss ⇒ 443), as the claim states it. -/
def inferredPort (scheme : String) : Option String :=
  match scheme with
  | "http" => some "80"
  | "ws" => some "80"
  | "https" => some "443"
  | "wss" => some "443"
  | _ => none

/-- Host component of an allow-list entry `host[:port]`. -/
def specEntryHost (entry : String) : String :=
  (goSplit2 entry ':').headD ""

/-- Port component of an allow-list entry, when present. -/
def specEntryPort (entry : String) : Option String :=
  match goSplit2 entry ':' with
  | [_, p] => some p
  | _ => none

/-- The claim's notion of an allow-list entry matching a parsed request
origin, stated from the specification's words: host `*` matches any
host; a port of `*` or an absent port component in the entry matches
any port; when the origin URL omits a port it is inferred from the
scheme before comparison. -/
def specEntryMatches (u : Url) (entry : String) : Bool :=
  (specEntryHost entry == "*" || specEntryHost entry == specOriginHost u) &&
  (match specEntryPort entry with
   | none => true
   | some op =>
     op == "*" ||
     (match specOriginPort u with
      | some p => op == p
      | none =>
        match inferredPort u.scheme with
        | some p => op == p
        | none => false))

/-- Outcome of `SocketIO.handle`'s own routing work: either it wrote an
HTTP status itself, or it handed the exchange to a connection via
`c.handle` (`isNew` records whether the connection was freshly created). -/
inductive Outcome where
  | wrote (status : Nat)
  | dispatched (c : Conn) (isNew : Bool)
deriving DecidableEq

/-- What `SocketIO.handle` produced for a request: the headers it set
and its routing outcome. -/
structure HandleResult where
  headers : List (String × String)
  outcome : Outcome
deriving DecidableEq

/-- The three CORS headers `handle` sets when the Origin header is
accepted (src/socketio.go lines 243-245). -/
def corsHeaders (origin : String) : List (String × String) :=
  [("Access-Control-Allow-Origin", origin),
   ("Access-Control-Allow-Credentials", "true"),
   ("Access-Control-Allow-Methods", "POST, GET")]

/-- The route parsing of `SocketIO.handle` (src/socketio.go lines
261-269): find the last occurrence of the transport resource in the
path, drop one trailing slash, and split the tail on `/`. An absent
occurrence yields no parts (Go leaves `parts` nil). -/
def routeParts (path resource : String) : List String :=
  match lastIndexStr path resource with
  | none => []
  | some i =>
    let pathLen :=
      if path.data.getLast? = some '/' then path.data.length - 1
      else path.data.length
    (splitChar '/' ((path.data.take pathLen).drop i)).map String.mk

/-- The session id `handle` acts on, when it acts on one: `parts[1]`
exactly when the split produced two or three parts. -/
def extractedSessionID (path resource : String) : Option SessionID :=
  let parts := routeParts path resource
  if parts.length = 2 ∨ parts.length = 3 then some (parts.getD 1 "") else none

/-- The `switch len(parts)`/`c == nil` routing of `handle`
(src/socketio.go lines 271-300). `newConnResult` stands for the call
`newConn(sio)` (the `Conn` constructor lives in the absent
connection.go; only success or failure of the call matters here), and
`sessions` is the Hub's map consulted by `GetConn`. -/
def routeDispatch (resource : String) (sessions : List (SessionID × Conn))
    (newConnResult : Except Unit Conn) (path : String) : Outcome :=
  let parts := routeParts path resource
  if parts.length = 1 then
    match newConnResult with
    | .error _ => .wrote 500
    | .ok c => .dispatched c true
  else if parts.length = 2 ∨ parts.length = 3 then
    match sessions.lookup (parts.getD 1 "") with
    | some c => .dispatched c false
    | none => .wrote 400
  else .wrote 400

/-- An incoming HTTP request as `handle` sees it: method, URL path and
the optional Origin header. -/
structure Request where
  method : String
  path : String
  origin : Option String
deriving DecidableEq

/-- Does the request get past the origin gate at the top of `handle`?
A request without an Origin header is never checked. -/
def gateOk (origins : Origins) (parseUrl : String → Option Url) (req : Request) : Bool :=
  match req.origin with
  | none => true
  | some o => (verifyOrigin origins parseUrl o).2

/-- The headers a request that passed the origin gate carries onward:
the three CORS headers when an Origin header was present (and hence
accepted), none otherwise. -/
def gateHeaders (req : Request) : List (String × String) :=
  match req.origin with
  | none => []
  | some o => corsHeaders o

/-- The `switch req.Method` of `handle` (src/socketio.go lines 248-259)
followed by the routing: OPTIONS answers 200 immediately, GET and POST
fall through to route parsing, anything else answers 401. -/
def methodOutcome (resource : String) (sessions : List (SessionID × Conn))
    (newConnResult : Except Unit Conn) (req : Request) : Outcome :=
  if req.method = "OPTIONS" then .wrote 200
  else if req.method = "GET" ∨ req.method = "POST" then
    routeDispatch resource sessions newConnResult req.path
  else .wrote 401

/-- Embeds `SocketIO.handle` (src/socketio.go lines 227-301): origin gate,
CORS headers, method dispatch, then route parsing. -/
def handle (origins : Origins) (parseUrl : String → Option Url) (resource : String)
    (sessions : List (SessionID × Conn)) (newConnResult : Except Unit Conn)
    (req : Request) : HandleResult :=
  match req.origin with
  | some o =>
    if (verifyOrigin origins parseUrl o).2 then
      ⟨corsHeaders o, methodOutcome resource sessions newConnResult req⟩
    else ⟨[], .wrote 401⟩
  | none => ⟨[], methodOutcome resource sessions newConnResult req⟩

/-- The Hub wiring mutated by `Mux`, `OnConnect`, `OnDisconnect` and
`OnMessage`: the muxed flag, the three user callbacks (of abstract
types `F` for `func(*Conn)` and `G` for `func(*Conn, Message)`) and the
URL patterns registered on the HTTP mux. -/
structure Wiring (F G : Type) where
  muxed : Bool
  onConnectCb : Option F
  onDisconnectCb : Option F
  onMessageCb : Option G
  routes : List String
deriving DecidableEq

/-- Embeds `SocketIO.Mux` (src/socketio.go lines 146-172): refuse when already
muxed or when the resource is empty or does not end in a slash;
otherwise register `<resource><t>/` and `<resource><t>` for every
transport resource `t` and set the muxed flag. The pair returned is the
Go error value together with the receiver after the call. -/
def mux {F G : Type} (w : Wiring F G) (resource : String)
    (transports : List String) : Except String Unit × Wiring F G :=
  if w.muxed then (.error "Mux: already muxed", w)
  else if resource = "" ∨ resource.data.getLast? ≠ some '/' then
    (.error "Mux: resource must end with a slash", w)
  else
    (.ok (), { w with
      muxed := true,
      routes := w.routes ++
        transports.foldr (fun t acc => (resource ++ t ++ "/") :: (resource ++ t) :: acc) [] })

/-- Embeds `SocketIO.OnConnect` (src/socketio.go lines 176-182). -/
def setOnConnect {F G : Type} (w : Wiring F G) (f : F) : Except String Unit × Wiring F G :=
  if w.muxed then (.error "OnConnect: already muxed", w)
  else (.ok (), { w with onConnectCb := some f })

/-- Embeds `SocketIO.OnDisconnect` (src/socketio.go lines 187-193). -/
def setOnDisconnect {F G : Type} (w : Wiring F G) (f : F) : Except String Unit × Wiring F G :=
  if w.muxed then (.error "OnDisconnect: already muxed", w)
  else (.ok (), { w with onDisconnectCb := some f })

/-- Embeds `SocketIO.OnMessage` (src/socketio.go lines 198-204). -/
def setOnMessage {F G : Type} (w : Wiring F G) (g : G) : Except String Unit × Wiring F G :=
  if w.muxed then (.error "OnMessage: already muxed", w)
  else (.ok (), { w with onMessageCb := some g })

/-- Embeds `SocketIO.BroadcastExcept` (src/socketio.go lines 123-132): the
`Send` calls it performs, as receiver/datum pairs. `c = none` models
the nil pointer passed by `Broadcast`; map values are compared to `c`
by identity as in Go. -/
def broadcastExcept {D : Type} (sessions : List (SessionID × Conn))
    (c : Option Conn) (data : D) : List (Conn × D) :=
  (sessions.filter (fun p => decide (some p.2 ≠ c))).map (fun p => (p.2, data))

/-- Embeds `SocketIO.Broadcast` (src/socketio.go lines 116-118). -/
def broadcast {D : Type} (sessions : List (SessionID × Conn)) (data : D) : List (Conn × D) :=
  broadcastExcept sessions none data

/-- The fixed preamble of the Flash policy document written by
`generatePolicyFile` (src/transport_flashsocket.go lines 71-75). -/
def policyPreamble : String :=
  "<?xml version=\"1.0\"?>\n<!DOCTYPE cross-domain-policy SYSTEM \"http://www.macromedia.com/xml/dtds/cross-domain-policy.dtd\">\n<cross-domain-policy>\n\t<site-control permitted-cross-domain-policies=\"master-only\" />\n"

/-- The `allow-access-from` line `generatePolicyFile` appends for one
origin entry (src/transport_flashsocket.go lines 79-91): split at the
first colon, substitute `*` for an empty host and for a missing or
empty port. -/
def allowAccessLine (origin : String) : String :=
  let parts := goSplit2 origin ':'
  let host := if parts.headD "" ≠ "" then parts.headD "" else "*"
  let port := if parts.length = 2 ∧ parts.getD 1 "" ≠ "" then parts.getD 1 "" else "*"
  "\t<allow-access-from domain=\"" ++ host ++ "\" to-ports=\"" ++ port ++ "\" />\n"

/-- Embeds `generatePolicyFile` (src/transport_flashsocket.go lines 69-97),
including the vacuous `len(parts) < 1` guard of the loop. -/
def generatePolicyFile (origins : Origins) : String :=
  policyPreamble ++
  (match origins with
   | none => ""
   | some os =>
     os.foldl (fun buf origin =>
       if (goSplit2 origin ':').length < 1 then buf
       else buf ++ allowAccessLine origin) "") ++
  "</cross-domain-policy>\n"

/-- The `allow-access-from` element the claim describes for one entry:
the entry's host and port with `*` substituted for a missing or empty
component. -/
def specAllowElement (entry : String) : String :=
  let host := if specEntryHost entry = "" then "*" else specEntryHost entry
  let port :=
    match specEntryPort entry with
    | none => "*"
    | some p => if p = "" then "*" else p
  "\t<allow-access-from domain=\"" ++ host ++ "\" to-ports=\"" ++ port ++ "\" />\n"

/-- Concatenation of a list of strings, used to state the shape of the
generated policy document. -/
def concatAll (l : List String) : String :=
  l.foldr (fun a acc => a ++ acc) ""

/-- The literal 20-byte request the policy listener expects. -/
def policyRequestLit : String := "<policy-file-request"

/-- The per-connection behaviour of `ListenAndServeFlashPolicy`
(src/transport_flashsocket.go lines 116-145) as a function of the bytes
the client sends: `io.ReadFull` demands 20 bytes (fewer ⇒ close with no
response), the 20 bytes must equal the literal request (else close with
no response), and on a match the policy document is written. -/
def flashPolicyRespond (policy : String) (inbound : List Char) : Option String :=
  if inbound.length < 20 then none
  else if String.mk (inbound.take 20) = policyRequestLit then some policy else none

/-- Hub-level events that touch or read the session map. `connect sid`
is `sio.onConnect` being invoked by a connection that completed its
handshake; `disconnect sid` is `sio.onDisconnect` being invoked by a
connection that became DISCONNECTED; the remaining events are the
read-only map operations of socketio.go. -/
inductive HubEvent where
  | connect (sid : SessionID)
  | disconnect (sid : SessionID)
  | getConn (sid : SessionID)
  | broadcastEv
deriving DecidableEq

/-- The Hub state relevant to the session-map invariant: the key set of
`sio.sessions` plus, per SessionID, whether its connection has ever
connected and whether it has disconnected. -/
structure HubState where
  sessions : List SessionID
  connectedSet : List SessionID
  disconnectedSet : List SessionID
deriving DecidableEq

/-- The freshly constructed Hub of `NewSocketIO`: an empty session map
and no connection history. -/
def initHub : HubState :=
  ⟨[], [], []⟩

/-- One Hub step. `connect` inserts the key into the session map
(`sio.sessions[c.sessionid] = c`, src/socketio.go line 308) and
`disconnect` deletes it (line 321); `getConn` and `broadcastEv` only
read the map. The `connectedSet`/`disconnectedSet` bookkeeping records
the lifecycle facts the events carry. -/
def hubStep (st : HubState) (e : HubEvent) : HubState :=
  match e with
  | .connect sid =>
    { st with
      sessions := if sid ∈ st.sessions then st.sessions else sid :: st.sessions,
      connectedSet := sid :: st.connectedSet }
  | .disconnect sid =>
    { st with
      sessions := st.sessions.filter (fun x => decide (x ≠ sid)),
      disconnectedSet := sid :: st.disconnectedSet }
  | .getConn _ => st
  | .broadcastEv => st

/-- Modelled from the spec: connection.go is not under src/, so the
conditions under which a connection invokes `sio.onConnect` and
`sio.onDisconnect` are taken from the specification's lifecycle —
SessionIDs are minted fresh and unguessable (never reused), a
connection fires on-connect at most once ("Exactly one on-connect …
per Connection"), DISCONNECTED is terminal and on-disconnect fires at
most once. -/
def eventOk (st : HubState) : HubEvent → Bool
  | .connect sid => decide (sid ∉ st.connectedSet) && decide (sid ∉ st.disconnectedSet)
  | .disconnect sid => decide (sid ∉ st.disconnectedSet)
  | .getConn _ => true
  | .broadcastEv => true

/-- A trace of Hub events that respects the lifecycle side conditions,
starting from state `st`. -/
def validFrom (st : HubState) : List HubEvent → Bool
  | [] => true
  | e :: rest => eventOk st e && validFrom (hubStep st e) rest

/-- Replays a trace of Hub events from the initial Hub. -/
def runHub (tr : List HubEvent) : HubState :=
  tr.foldl hubStep initHub

/-- The session-map invariant of the claim: a SessionID is a key of the
map exactly when its connection has connected and not yet
disconnected. -/
def hubInv (st : HubState) : Prop :=
  ∀ sid : SessionID,
    sid ∈ st.sessions ↔ (sid ∈ st.connectedSet ∧ sid ∉ st.disconnectedSet)

theorem mem_of_getLast?_eq {l : List Char} {a : Char} (h : l.getLast? = some a) : a ∈ l := by
  obtain ⟨hne, heq⟩ := List.mem_getLast?_eq_getLast (l := l) (x := a) (by rw [Option.mem_def, h])
  rw [heq]
  exact List.getLast_mem hne

theorem lastIndexChar_ge_of_prefix (sub : List Char) :
    ∀ (s : List Char) (i : Nat), sub.isPrefixOf (s.drop i) = true → i ≤ s.length →
      ∃ j, lastIndexChar sub s = some j ∧ i ≤ j := by
  intro s
  induction s with
  | nil =>
    intro i hpre hi
    have hz : i = 0 := Nat.le_zero.mp hi
    subst hz
    rw [List.drop_nil] at hpre
    exact ⟨0, by simp [lastIndexChar, hpre], Nat.le_refl 0⟩
  | cons c rest ih =>
    intro i hpre hi
    cases i with
    | zero =>
      cases hres : lastIndexChar sub rest with
      | some k => exact ⟨k + 1, by simp [lastIndexChar, hres], Nat.zero_le _⟩
      | none =>
        refine ⟨0, ?_, Nat.le_refl 0⟩
        rw [List.drop_zero] at hpre
        simp [lastIndexChar, hres, hpre]
    | succ i' =>
      have hpre' : sub.isPrefixOf (rest.drop i') = true := by
        simpa [List.drop_succ_cons] using hpre
      have hi' : i' ≤ rest.length := by
        simp at hi
        omega
      obtain ⟨k, hk, hik⟩ := ih i' hpre' hi'
      exact ⟨k + 1, by simp [lastIndexChar, hk], by omega⟩

theorem lastIndexChar_some_prefix (sub : List Char) :
    ∀ (s : List Char) (i : Nat), lastIndexChar sub s = some i →
      sub.isPrefixOf (s.drop i) = true ∧ i ≤ s.length := by
  intro s
  induction s with
  | nil =>
    intro i h
    simp only [lastIndexChar] at h
    split at h
    · next hp =>
      injection h with h
      subst h
      exact ⟨by simpa [List.drop_nil] using hp, Nat.le_refl 0⟩
    · exact absurd h (by simp)
  | cons c rest ih =>
    intro i h
    simp only [lastIndexChar] at h
    cases hres : lastIndexChar sub rest with
    | some k =>
      rw [hres] at h
      simp only [] at h
      injection h with h
      subst h
      obtain ⟨hp, hlen⟩ := ih k hres
      exact ⟨by simpa [List.drop_succ_cons] using hp, by simp; omega⟩
    | none =>
      rw [hres] at h
      simp only [] at h
      split at h
      · next hp =>
        injection h with h
        subst h
        exact ⟨by simpa using hp, Nat.zero_le _⟩
      · exact absurd h (by simp)

theorem lastIndexChar_append_self (bigR r : List Char) :
    lastIndexChar r (bigR ++ r) = some bigR.length := by
  have hocc : r.isPrefixOf ((bigR ++ r).drop bigR.length) = true := by
    rw [List.drop_left]
    exact List.isPrefixOf_iff_prefix.mpr (List.prefix_refl r)
  obtain ⟨j, hj, hbj⟩ :=
    lastIndexChar_ge_of_prefix r (bigR ++ r) bigR.length hocc (by simp)
  obtain ⟨hp, hlen⟩ := lastIndexChar_some_prefix r (bigR ++ r) j hj
  have h1 := (List.isPrefixOf_iff_prefix.mp hp).length_le
  rw [List.length_drop, List.length_append] at h1
  rw [List.length_append] at hlen
  have : j = bigR.length := by omega
  rw [hj, this]

theorem lastIndexChar_append_concat (bigR r : List Char) (c : Char)
    (hr : r ≠ []) (hc : c ∉ r) :
    lastIndexChar r (bigR ++ r ++ [c]) = some bigR.length := by
  have hocc : r.isPrefixOf ((bigR ++ r ++ [c]).drop bigR.length) = true := by
    rw [List.append_assoc, List.drop_left]
    exact List.isPrefixOf_iff_prefix.mpr ⟨[c], rfl⟩
  obtain ⟨j, hj, hbj⟩ :=
    lastIndexChar_ge_of_prefix r (bigR ++ r ++ [c]) bigR.length hocc
      (by simp)
  obtain ⟨hp, hlen⟩ := lastIndexChar_some_prefix r (bigR ++ r ++ [c]) j hj
  have hpre := List.isPrefixOf_iff_prefix.mp hp
  have h1 := hpre.length_le
  rw [List.length_drop, List.length_append, List.length_append] at h1
  simp only [List.length_cons, List.length_nil] at h1
  have hrlen : 1 ≤ r.length := by
    cases r with
    | nil => exact absurd rfl hr
    | cons a rs => simp
  have hj2 : j ≤ bigR.length + 1 := by omega
  rcases Nat.lt_or_ge j (bigR.length + 1) with hlt | hge
  · have : j = bigR.length := by omega
    rw [hj, this]
  · exfalso
    have hje : j = bigR.length + 1 := by omega
    subst hje
    have hdrop : (bigR ++ r ++ [c]).drop (bigR.length + 1) = r.drop 1 ++ [c] := by
      rw [List.append_assoc]
      rw [show bigR.length + 1 = bigR.length + 1 from rfl]
      rw [← List.drop_drop, List.drop_left]
      cases r with
      | nil => exact absurd rfl hr
      | cons a rs => simp
    rw [hdrop] at hpre
    have hlq : r.length = (r.drop 1 ++ [c]).length := by
      rw [List.length_append, List.length_drop]
      simp
      omega
    have hreq : r = r.drop 1 ++ [c] := hpre.eq_of_length hlq
    have : c ∈ r := by
      rw [hreq]
      exact List.mem_append_right _ (List.mem_singleton_self c)
    exact hc this

theorem splitChar_eq_single (sep : Char) :
    ∀ (l : List Char), sep ∉ l → splitChar sep l = [l] := by
  intro l
  induction l with
  | nil => intro _; rfl
  | cons c rest ih =>
    intro h
    have hc : ¬(c = sep) := fun hcs => h (hcs ▸ List.mem_cons_self c rest)
    have hrest : sep ∉ rest := fun hm => h (List.mem_cons_of_mem c hm)
    simp [splitChar, ih hrest, hc]

theorem split2Char_shape (sep : Char) :
    ∀ (l : List Char), (∃ a, split2Char sep l = [a]) ∨ (∃ a b, split2Char sep l = [a, b]) := by
  intro l
  induction l with
  | nil => exact .inl ⟨[], rfl⟩
  | cons c rest ih =>
    by_cases hc : c = sep
    · exact .inr ⟨[], rest, by simp [split2Char, hc]⟩
    · rcases ih with ⟨a, ha⟩ | ⟨a, b, hab⟩
      · exact .inl ⟨c :: a, by simp [split2Char, hc, ha]⟩
      · exact .inr ⟨c :: a, b, by simp [split2Char, hc, hab]⟩

theorem routeParts_append (bigR r : String) (hr : r.data ≠ []) (hs : '/' ∉ r.data) :
    routeParts (bigR ++ r) r = [r] := by
  have hlast : ¬((bigR.data ++ r.data).getLast? = some '/') := by
    rw [List.getLast?_append_of_ne_nil _ hr]
    exact fun hcon => hs (mem_of_getLast?_eq hcon)
  unfold routeParts lastIndexStr
  rw [String.data_append, lastIndexChar_append_self]
  simp only [if_neg hlast]
  rw [List.take_length, List.drop_left, splitChar_eq_single '/' r.data hs]
  rfl

theorem routeParts_append_slash (bigR r : String) (hr : r.data ≠ []) (hs : '/' ∉ r.data) :
    routeParts (bigR ++ r ++ "/") r = [r] := by
  have hsd : ("/" : String).data = ['/'] := rfl
  unfold routeParts lastIndexStr
  rw [String.data_append, String.data_append, hsd,
    lastIndexChar_append_concat bigR.data r.data '/' hr hs]
  have hlen : ((bigR.data ++ r.data) ++ ['/']).length - 1 = (bigR.data ++ r.data).length := by
    simp
  simp only [List.getLast?_concat]
  rw [if_pos trivial, hlen, List.take_left, List.drop_left, splitChar_eq_single '/' r.data hs]
  rfl

theorem entryMatches_eq_spec (u : Url) (entry : String) :
    entryMatches u.scheme (goSplit2 u.host ':') entry = specEntryMatches u entry := by
  unfold entryMatches specEntryMatches specEntryHost specEntryPort specOriginHost
    specOriginPort inferredPort
  rcases split2Char_shape ':' entry.data with ⟨a, ha⟩ | ⟨a, b, hab⟩ <;>
    rcases split2Char_shape ':' u.host.data with ⟨x, hx⟩ | ⟨x, y, hxy⟩ <;>
      simp only [goSplit2, List.map_cons, List.map_nil, List.headD_cons, Bool.and_true, *] <;>
      try rfl
  all_goals
    split <;> simp_all

theorem findOriginMatch_true_iff (scheme : String) (hostParts : List String) :
    ∀ os : List String, ((findOriginMatch scheme hostParts os).2 = true ↔
      ∃ e, e ∈ os ∧ entryMatches scheme hostParts e = true) := by
  intro os
  induction os with
  | nil => simp [findOriginMatch]
  | cons o os ih =>
    by_cases h : entryMatches scheme hostParts o = true
    · rw [findOriginMatch, if_pos h]
      constructor
      · intro _
        exact ⟨o, List.mem_cons_self o os, h⟩
      · intro _
        rfl
    · rw [findOriginMatch, if_neg h, ih]
      constructor
      · rintro ⟨e, he, hm⟩
        exact ⟨e, List.mem_cons_of_mem o he, hm⟩
      · rintro ⟨e, he, hm⟩
        rcases List.mem_cons.mp he with rfl | he'
        · exact absurd hm h
        · exact ⟨e, he', hm⟩

theorem verifyOrigin_eq_false_of_bad (origins : Origins) (parseUrl : String → Option Url)
    (o : String) (hbad : parseUrl o = none ∨ ∃ u, parseUrl o = some u ∧ u.host = "") :
    verifyOrigin origins parseUrl o = ("", false) := by
  unfold verifyOrigin
  cases origins with
  | none => rfl
  | some os =>
    rcases hbad with hnone | ⟨u, hu, hh⟩
    · rw [hnone]
    · rw [hu]
      simp [hh]

theorem handle_gate_rejected (origins : Origins) (parseUrl : String → Option Url)
    (resource : String) (sessions : List (SessionID × Conn)) (newConnResult : Except Unit Conn)
    (req : Request) (o : String) (ho : req.origin = some o)
    (hv : (verifyOrigin origins parseUrl o).2 = false) :
    handle origins parseUrl resource sessions newConnResult req = ⟨[], .wrote 401⟩ := by
  unfold handle
  rw [ho]
  simp [hv]

theorem handle_eq_of_gateOk (origins : Origins) (parseUrl : String → Option Url)
    (resource : String) (sessions : List (SessionID × Conn)) (newConnResult : Except Unit Conn)
    (req : Request) (hgate : gateOk origins parseUrl req = true) :
    handle origins parseUrl resource sessions newConnResult req =
      ⟨gateHeaders req, methodOutcome resource sessions newConnResult req⟩ := by
  unfold gateOk at hgate
  unfold handle gateHeaders
  cases ho : req.origin with
  | none => rfl
  | some o =>
    rw [ho] at hgate
    have hg : (verifyOrigin origins parseUrl o).2 = true := hgate
    simp [hg]

theorem methodOutcome_get_or_post (resource : String) (sessions : List (SessionID × Conn))
    (newConnResult : Except Unit Conn) (req : Request)
    (hmethod : req.method = "GET" ∨ req.method = "POST") :
    methodOutcome resource sessions newConnResult req =
      routeDispatch resource sessions newConnResult req.path := by
  unfold methodOutcome
  rcases hmethod with hm | hm <;> rw [hm]
  · rw [if_neg (by decide), if_pos (Or.inl rfl)]
  · rw [if_neg (by decide), if_pos (Or.inr rfl)]

theorem mem_broadcastExcept_iff (D : Type) (sessions : List (SessionID × Conn))
    (c : Option Conn) (d : D) (x : Conn) (d' : D) :
    (x, d') ∈ broadcastExcept sessions c d ↔
      (d' = d ∧ (∃ sid, (sid, x) ∈ sessions) ∧ some x ≠ c) := by
  unfold broadcastExcept
  rw [List.mem_map]
  constructor
  · rintro ⟨p, hp, heq⟩
    obtain ⟨hmem, hpred⟩ := List.mem_filter.mp hp
    have hx : p.2 = x := congrArg Prod.fst heq
    have hd : d = d' := congrArg Prod.snd heq
    refine ⟨hd.symm, ⟨p.1, ?_⟩, ?_⟩
    · rw [← hx]
      exact hmem
    · rw [← hx]
      exact of_decide_eq_true hpred
  · rintro ⟨rfl, ⟨sid, hmem⟩, hne⟩
    exact ⟨(sid, x), List.mem_filter.mpr ⟨hmem, decide_eq_true hne⟩, rfl⟩

theorem allowAccessLine_eq_spec (entry : String) :
    allowAccessLine entry = specAllowElement entry := by
  unfold allowAccessLine specAllowElement specEntryHost specEntryPort
  rcases split2Char_shape ':' entry.data with ⟨a, ha⟩ | ⟨a, b, hab⟩
  · by_cases hz : String.mk a = "" <;> simp [goSplit2, ha, hz] <;> try decide
  · by_cases hb : String.mk b = "" <;> by_cases hz : String.mk a = "" <;>
      simp [goSplit2, hab, hb, hz] <;> try decide

theorem split2_length_pos (s : String) (sep : Char) : ¬((goSplit2 s sep).length < 1) := by
  rcases split2Char_shape sep s.data with ⟨a, ha⟩ | ⟨a, b, hab⟩ <;>
    simp [goSplit2, *]

theorem foldl_policy_append (f : String → String) :
    ∀ (os : List String) (acc : String),
      os.foldl (fun buf origin =>
        if (goSplit2 origin ':').length < 1 then buf else buf ++ f origin) acc
        = acc ++ concatAll (os.map f) := by
  intro os
  induction os with
  | nil =>
    intro acc
    show acc = acc ++ ""
    rw [String.append_empty]
  | cons o os ih =>
    intro acc
    rw [List.foldl_cons, if_neg (split2_length_pos o ':'), ih]
    rw [List.map_cons]
    show (acc ++ f o) ++ concatAll (os.map f) = acc ++ (f o ++ concatAll (os.map f))
    rw [String.append_assoc]

theorem hubInv_init : hubInv initHub := by
  intro sid
  simp [initHub]

theorem hubStep_preserves_inv (st : HubState) (e : HubEvent)
    (hinv : hubInv st) (hok : eventOk st e = true) : hubInv (hubStep st e) := by
  cases e with
  | connect sid =>
    simp only [eventOk, Bool.and_eq_true, decide_eq_true_eq] at hok
    obtain ⟨hc, hd⟩ := hok
    have hnot : sid ∉ st.sessions := fun hmem => hc ((hinv sid).mp hmem).1
    intro x
    simp only [hubStep, if_neg hnot, List.mem_cons]
    by_cases hx : x = sid
    · subst hx
      constructor
      · intro _
        exact ⟨Or.inl rfl, hd⟩
      · intro _
        exact Or.inl rfl
    · constructor
      · rintro (h | h)
        · exact absurd h hx
        · obtain ⟨h1, h2⟩ := (hinv x).mp h
          exact ⟨Or.inr h1, h2⟩
      · rintro ⟨h1 | h1, h2⟩
        · exact absurd h1 hx
        · exact Or.inr ((hinv x).mpr ⟨h1, h2⟩)
  | disconnect sid =>
    simp only [eventOk, decide_eq_true_eq] at hok
    intro x
    simp only [hubStep, List.mem_filter, List.mem_cons, decide_eq_true_eq]
    constructor
    · rintro ⟨hmem, hne⟩
      obtain ⟨h1, h2⟩ := (hinv x).mp hmem
      refine ⟨h1, ?_⟩
      rintro (h | h)
      · exact hne h
      · exact h2 h
    · rintro ⟨h1, h2⟩
      have hne : x ≠ sid := fun hx => h2 (Or.inl hx)
      have hnd : x ∉ st.disconnectedSet := fun hx => h2 (Or.inr hx)
      exact ⟨(hinv x).mpr ⟨h1, hnd⟩, hne⟩
  | getConn sid =>
    exact hinv
  | broadcastEv =>
    exact hinv

theorem validFrom_foldl_inv :
    ∀ (tr : List HubEvent) (st : HubState), hubInv st → validFrom st tr = true →
      hubInv (tr.foldl hubStep st) := by
  intro tr
  induction tr with
  | nil =>
    intro st h _
    simpa using h
  | cons e rest ih =>
    intro st h hv
    simp only [validFrom, Bool.and_eq_true] at hv
    exact ih (hubStep st e) (hubStep_preserves_inv st e h hv.1) hv.2

/-- C1: for every GET or POST request that passes the origin gate,
`handle` routes as specified: a parsed path with zero components after
the transport resource (the paths `R + r` and `R + r + "/"` alike, for
a nonempty slash-free resource) takes the new-connection branch, with
status 500 written when creation fails; one or two components after the
resource make `handle` look the first one up as a SessionID in the
Hub's map, with status 400 written when no connection is found. -/
theorem claim1_request_routing (origins : Origins) (parseUrl : String → Option Url)
    (r : String) (sessions : List (SessionID × Conn)) (newConnResult : Except Unit Conn)
    (req : Request) (hgate : gateOk origins parseUrl req = true)
    (hmethod : req.method = "GET" ∨ req.method = "POST") :
    ((routeParts req.path r).length = 1 →
      (handle origins parseUrl r sessions newConnResult req).outcome =
        match newConnResult with
        | .error _ => .wrote 500
        | .ok c => .dispatched c true) ∧
    ((routeParts req.path r).length = 2 ∨ (routeParts req.path r).length = 3 →
      (handle origins parseUrl r sessions newConnResult req).outcome =
        match sessions.lookup ((routeParts req.path r).getD 1 "") with
        | some c => .dispatched c false
        | none => .wrote 400) ∧
    (∀ bigR : String, r.data ≠ [] → '/' ∉ r.data →
      routeParts (bigR ++ r) r = [r] ∧ routeParts (bigR ++ r ++ "/") r = [r]) := by
  have hh := handle_eq_of_gateOk origins parseUrl r sessions newConnResult req hgate
  have hm := methodOutcome_get_or_post r sessions newConnResult req hmethod
  refine ⟨?_, ?_, ?_⟩
  · intro h1
    rw [hh]
    show methodOutcome r sessions newConnResult req = _
    rw [hm]
    simp only [routeDispatch]
    rw [if_pos h1]
  · intro h23
    rw [hh]
    show methodOutcome r sessions newConnResult req = _
    rw [hm]
    simp only [routeDispatch]
    have hne1 : ¬((routeParts req.path r).length = 1) := by
      rcases h23 with h | h <;> omega
    rw [if_neg hne1, if_pos h23]
  · intro bigR hr hs
    exact ⟨routeParts_append bigR r hr hs, routeParts_append_slash bigR r hr hs⟩

/-- Witness for C1 at concrete inputs: a session lookup dispatch and
the zero-component path shapes. -/
theorem claim1_request_routing_witness :
    (handle none (fun _ => none) "websocket" [("abc", 5)] (.ok 7)
        ⟨"GET", "/socket.io/websocket/abc", none⟩).outcome = .dispatched 5 false ∧
    routeParts ("/socket.io/" ++ "websocket") "websocket" = ["websocket"] ∧
    routeParts ("/socket.io/" ++ "websocket" ++ "/") "websocket" = ["websocket"] := by
  have h := claim1_request_routing none (fun _ => none) "websocket" [("abc", 5)] (.ok 7)
      ⟨"GET", "/socket.io/websocket/abc", none⟩ (by decide) (Or.inl rfl)
  refine ⟨(h.2.1 (by decide)).trans (by decide), ?_, ?_⟩
  · exact (h.2.2 "/socket.io/" (by decide) (by decide)).1
  · exact (h.2.2 "/socket.io/" (by decide) (by decide)).2

/-- C2: `verifyOrigin` rejects everything when the allow-list is nil
and otherwise accepts exactly when some allow-list entry matches the
parsed origin in the claim's sense: wildcard or equal host; a port of
`*` or an absent entry port matches any port; an origin URL without a
port gets one inferred from its scheme before comparison. -/
theorem claim2_verify_origin (origins : Origins) (parseUrl : String → Option Url) (o : String) :
    (origins = none → verifyOrigin origins parseUrl o = ("", false)) ∧
    (∀ (os : List String) (u : Url), origins = some os → parseUrl o = some u → u.host ≠ "" →
      ((verifyOrigin origins parseUrl o).2 = true ↔
        ∃ e, e ∈ os ∧ specEntryMatches u e = true)) := by
  constructor
  · rintro rfl
    rfl
  · rintro os u rfl hu hh
    simp only [verifyOrigin, hu, if_neg hh]
    rw [findOriginMatch_true_iff]
    constructor
    · rintro ⟨e, he, hm⟩
      rw [entryMatches_eq_spec] at hm
      exact ⟨e, he, hm⟩
    · rintro ⟨e, he, hm⟩
      rw [← entryMatches_eq_spec] at hm
      exact ⟨e, he, hm⟩

/-- Witness for C2: a wildcard-port entry accepting a parsed origin. -/
theorem claim2_verify_origin_witness :
    (verifyOrigin (some ["example.com:*"])
        (fun s => if s = "http://example.com" then some ⟨"http", "example.com"⟩ else none)
        "http://example.com").2 = true ↔
      ∃ e, e ∈ ["example.com:*"] ∧
        specEntryMatches ⟨"http", "example.com"⟩ e = true :=
  (claim2_verify_origin (some ["example.com:*"])
      (fun s => if s = "http://example.com" then some ⟨"http", "example.com"⟩ else none)
      "http://example.com").2 ["example.com:*"] ⟨"http", "example.com"⟩ rfl (by decide)
      (by decide)

/-- C3: route parsing splits at the last occurrence of the transport
resource, so for a path `R + r + "/" + sid` whose sid contains the
resource name as a substring the code extracts a different session id
than the `sid` explicit parsing of that shape yields (here it extracts
none at all and treats the request as a new connection). -/
theorem claim3_last_index_bug :
    ∃ bigR r sid : String,
      (lastIndexStr sid r).isSome = true ∧
      extractedSessionID (bigR ++ r ++ "/" ++ sid) r ≠ some sid := by
  exact ⟨"/socket.io/", "websocket", "websocket123", by decide, by decide⟩

/-- C4: along every event trace respecting the connection lifecycle,
the Hub's session map contains a SessionID exactly when its connection
has connected and not yet disconnected — so no map entry ever denotes
a DISCONNECTED connection — and no event other than `connect` and
`disconnect` changes the session map. -/
theorem claim4_session_map_invariant (tr : List HubEvent)
    (hvalid : validFrom initHub tr = true) :
    hubInv (runHub tr) ∧
    (∀ (st : HubState) (e : HubEvent),
      (∀ sid, e ≠ .connect sid) → (∀ sid, e ≠ .disconnect sid) →
      (hubStep st e).sessions = st.sessions) := by
  constructor
  · exact validFrom_foldl_inv tr initHub hubInv_init hvalid
  · intro st e hc hd
    cases e with
    | connect sid => exact absurd rfl (hc sid)
    | disconnect sid => exact absurd rfl (hd sid)
    | getConn sid => rfl
    | broadcastEv => rfl

/-- Witness for C4 on a concrete valid trace. -/
theorem claim4_session_map_invariant_witness :
    hubInv (runHub [.connect "a", .connect "b", .disconnect "a"]) :=
  (claim4_session_map_invariant [.connect "a", .connect "b", .disconnect "a"]
    (by decide)).1

/-- C5: `BroadcastExcept c d` sends `d` to exactly the connections in
the session map other than `c`, and `Broadcast d` equals
`BroadcastExcept nil d`, sending to every connection in the map. -/
theorem claim5_broadcast_coverage (D : Type) (sessions : List (SessionID × Conn))
    (c : Option Conn) (d : D) :
    (∀ (x : Conn) (d' : D), (x, d') ∈ broadcastExcept sessions c d ↔
      (d' = d ∧ (∃ sid, (sid, x) ∈ sessions) ∧ some x ≠ c)) ∧
    broadcast sessions d = broadcastExcept sessions none d ∧
    (∀ (x : Conn) (d' : D), (x, d') ∈ broadcast sessions d ↔
      (d' = d ∧ ∃ sid, (sid, x) ∈ sessions)) := by
  refine ⟨fun x d' => mem_broadcastExcept_iff D sessions c d x d', rfl, fun x d' => ?_⟩
  rw [broadcast, mem_broadcastExcept_iff]
  constructor
  · rintro ⟨h1, h2, _⟩
    exact ⟨h1, h2⟩
  · rintro ⟨h1, h2⟩
    exact ⟨h1, h2, by simp⟩

/-- C6: a request whose Origin header fails the check is answered 401
with no headers and no routing, whatever its method and path; when the
Origin is accepted, `handle` sets exactly the three CORS headers,
echoing the request origin, before routing. -/
theorem claim6_origin_gate (origins : Origins) (parseUrl : String → Option Url)
    (resource : String) (sessions : List (SessionID × Conn)) (newConnResult : Except Unit Conn)
    (req : Request) (o : String) (ho : req.origin = some o) :
    ((verifyOrigin origins parseUrl o).2 = false →
      handle origins parseUrl resource sessions newConnResult req = ⟨[], .wrote 401⟩) ∧
    ((verifyOrigin origins parseUrl o).2 = true →
      (handle origins parseUrl resource sessions newConnResult req).headers = corsHeaders o ∧
      corsHeaders o = [("Access-Control-Allow-Origin", o),
        ("Access-Control-Allow-Credentials", "true"),
        ("Access-Control-Allow-Methods", "POST, GET")]) := by
  constructor
  · intro hv
    exact handle_gate_rejected origins parseUrl resource sessions newConnResult req o ho hv
  · intro hv
    refine ⟨?_, rfl⟩
    have hg : gateOk origins parseUrl req = true := by
      unfold gateOk
      rw [ho]
      exact hv
    rw [handle_eq_of_gateOk origins parseUrl resource sessions newConnResult req hg]
    show gateHeaders req = corsHeaders o
    unfold gateHeaders
    rw [ho]

/-- Witness for C6: one rejected and one accepted Origin. -/
theorem claim6_origin_gate_witness :
    handle (some ["*"]) (fun _ => none) "websocket" [] (.ok 0)
        ⟨"GET", "/socket.io/websocket", some "bad"⟩ = ⟨[], .wrote 401⟩ ∧
    (handle (some ["*"])
        (fun s => if s = "http://a.com" then some ⟨"http", "a.com"⟩ else none)
        "websocket" [] (.ok 0)
        ⟨"GET", "/socket.io/websocket", some "http://a.com"⟩).headers =
      corsHeaders "http://a.com" := by
  constructor
  · exact (claim6_origin_gate (some ["*"]) (fun _ => none) "websocket" [] (.ok 0)
      ⟨"GET", "/socket.io/websocket", some "bad"⟩ "bad" rfl).1 (by decide)
  · exact ((claim6_origin_gate (some ["*"])
      (fun s => if s = "http://a.com" then some ⟨"http", "a.com"⟩ else none)
      "websocket" [] (.ok 0)
      ⟨"GET", "/socket.io/websocket", some "http://a.com"⟩ "http://a.com" rfl).2
      (by decide)).1

/-- C7 counterexample: an OPTIONS request without an Origin header
passes the origin gate and is answered 200, but carries none of the
CORS allow headers — contradicting the claim that every OPTIONS
request passing the origin check gets 200 with the CORS allow
headers. -/
theorem claim7_counterexample :
    gateOk none (fun _ => none) ⟨"OPTIONS", "/socket.io/websocket", none⟩ = true ∧
    (handle none (fun _ => none) "websocket" [] (.ok 0)
        ⟨"OPTIONS", "/socket.io/websocket", none⟩).outcome = .wrote 200 ∧
    (handle none (fun _ => none) "websocket" [] (.ok 0)
        ⟨"OPTIONS", "/socket.io/websocket", none⟩).headers = [] :=
  ⟨rfl, rfl, rfl⟩

/-- C7 amended: for every request passing the origin gate, OPTIONS is
answered 200 and no routing happens; a method other than
OPTIONS/GET/POST is answered 401 and no routing happens; both answers
carry the CORS allow headers exactly when the request carried an
(accepted) Origin header. -/
theorem claim7_method_gate (origins : Origins) (parseUrl : String → Option Url)
    (resource : String) (sessions : List (SessionID × Conn)) (newConnResult : Except Unit Conn)
    (req : Request) (hgate : gateOk origins parseUrl req = true) :
    (req.method = "OPTIONS" →
      handle origins parseUrl resource sessions newConnResult req =
        ⟨gateHeaders req, .wrote 200⟩) ∧
    (req.method ≠ "OPTIONS" → req.method ≠ "GET" → req.method ≠ "POST" →
      handle origins parseUrl resource sessions newConnResult req =
        ⟨gateHeaders req, .wrote 401⟩) := by
  have hh := handle_eq_of_gateOk origins parseUrl resource sessions newConnResult req hgate
  constructor
  · intro hm
    rw [hh]
    unfold methodOutcome
    rw [if_pos hm]
  · intro h1 h2 h3
    rw [hh]
    unfold methodOutcome
    rw [if_neg h1, if_neg (fun hor => hor.elim h2 h3)]

/-- Witness for C7's amended statement: OPTIONS and DELETE requests
without an Origin header. -/
theorem claim7_method_gate_witness :
    handle none (fun _ => none) "websocket" [] (.ok 0)
        ⟨"OPTIONS", "/socket.io/websocket", none⟩ = ⟨[], .wrote 200⟩ ∧
    handle none (fun _ => none) "websocket" [] (.ok 0)
        ⟨"DELETE", "/socket.io/websocket", none⟩ = ⟨[], .wrote 401⟩ := by
  constructor
  · exact (claim7_method_gate none (fun _ => none) "websocket" [] (.ok 0)
      ⟨"OPTIONS", "/socket.io/websocket", none⟩ rfl).1 rfl
  · exact (claim7_method_gate none (fun _ => none) "websocket" [] (.ok 0)
      ⟨"DELETE", "/socket.io/websocket", none⟩ rfl).2 (by decide) (by decide) (by decide)

/-- C8: `Mux` errors without touching the wiring when the Hub is
already muxed or the resource is empty or lacks a trailing slash, and
a successful `Mux` sets the muxed flag; each callback setter errors
without touching the wiring exactly when the Hub is muxed, and installs
its callback (returning nil) when called before. -/
theorem claim8_wiring (F G : Type) (w : Wiring F G) (resource : String)
    (ts : List String) (f : F) (g : G) :
    (w.muxed = true →
      mux w resource ts = (.error "Mux: already muxed", w) ∧
      setOnConnect w f = (.error "OnConnect: already muxed", w) ∧
      setOnDisconnect w f = (.error "OnDisconnect: already muxed", w) ∧
      setOnMessage w g = (.error "OnMessage: already muxed", w)) ∧
    (resource = "" ∨ resource.data.getLast? ≠ some '/' →
      ((mux w resource ts).1 = .error "Mux: already muxed" ∨
        (mux w resource ts).1 = .error "Mux: resource must end with a slash") ∧
      (mux w resource ts).2 = w) ∧
    ((mux w resource ts).1 = .ok () → (mux w resource ts).2.muxed = true) ∧
    (w.muxed = false →
      setOnConnect w f = (.ok (), { w with onConnectCb := some f }) ∧
      setOnDisconnect w f = (.ok (), { w with onDisconnectCb := some f }) ∧
      setOnMessage w g = (.ok (), { w with onMessageCb := some g })) := by
  refine ⟨?_, ?_, ?_, ?_⟩
  · intro hm
    refine ⟨?_, ?_, ?_, ?_⟩ <;>
      simp [mux, setOnConnect, setOnDisconnect, setOnMessage, hm]
  · intro hbad
    cases hm : w.muxed with
    | true =>
      constructor
      · exact Or.inl (by simp [mux, hm])
      · simp [mux, hm]
    | false =>
      constructor
      · exact Or.inr (by simp [mux, hm, if_pos hbad])
      · simp [mux, hm, if_pos hbad]
  · intro hok
    cases hm : w.muxed with
    | true =>
      rw [mux, if_pos hm] at hok
      exact absurd hok (by simp)
    | false =>
      by_cases hbad : resource = "" ∨ resource.data.getLast? ≠ some '/'
      · rw [mux, if_neg (by simp [hm]), if_pos hbad] at hok
        exact absurd hok (by simp)
      · rw [mux, if_neg (by simp [hm]), if_neg hbad]
  · intro hm
    refine ⟨?_, ?_, ?_⟩ <;>
      simp [setOnConnect, setOnDisconnect, setOnMessage, hm]

/-- Witness for C8: a muxed Hub refusing a setter, a bad resource
refused, and a setter installing its callback before muxing. -/
theorem claim8_wiring_witness :
    mux (Wiring.mk true none none none [] : Wiring Nat Nat) "/sio/" ["ws"] =
      (.error "Mux: already muxed", Wiring.mk true none none none []) ∧
    (mux (Wiring.mk false none none none [] : Wiring Nat Nat) "/sio" ["ws"]).2 =
      Wiring.mk false none none none [] ∧
    setOnConnect (Wiring.mk false none none none [] : Wiring Nat Nat) 7 =
      (.ok (), Wiring.mk false (some 7) none none []) := by
  refine ⟨?_, ?_, ?_⟩
  · exact ((claim8_wiring Nat Nat (Wiring.mk true none none none []) "/sio/" ["ws"] 7 8).1
      rfl).1
  · exact ((claim8_wiring Nat Nat (Wiring.mk false none none none []) "/sio" ["ws"] 7 8).2.1
      (by decide)).2
  · exact ((claim8_wiring Nat Nat (Wiring.mk false none none none []) "/sio" ["ws"] 7 8).2.2.2
      rfl).1

/-- C9: the policy listener serves the policy document exactly to
connections whose first 20 bytes are the literal
`<policy-file-request` and closes every other connection (including
those that close before 20 bytes) without a response; the served
document is the fixed preamble, one allow-access-from element per
configured origin entry — the entry's host and port with `*`
substituted for a missing or empty component — and the closing tag. -/
theorem claim9_flash_policy (policy : String) (inbound : List Char) (os : List String) :
    (flashPolicyRespond policy inbound = some policy ↔
      (20 ≤ inbound.length ∧ String.mk (inbound.take 20) = policyRequestLit)) ∧
    (flashPolicyRespond policy inbound = none ↔
      ¬(20 ≤ inbound.length ∧ String.mk (inbound.take 20) = policyRequestLit)) ∧
    generatePolicyFile (some os) =
      policyPreamble ++ concatAll (os.map specAllowElement) ++ "</cross-domain-policy>\n" ∧
    generatePolicyFile none = policyPreamble ++ "</cross-domain-policy>\n" := by
  refine ⟨?_, ?_, ?_, ?_⟩
  · unfold flashPolicyRespond
    by_cases h1 : inbound.length < 20
    · rw [if_pos h1]
      constructor
      · intro h
        exact Option.noConfusion h
      · rintro ⟨hl, _⟩
        omega
    · rw [if_neg h1]
      by_cases h2 : String.mk (inbound.take 20) = policyRequestLit
      · rw [if_pos h2]
        exact ⟨fun _ => ⟨by omega, h2⟩, fun _ => rfl⟩
      · rw [if_neg h2]
        constructor
        · intro h
          exact Option.noConfusion h
        · rintro ⟨_, hc⟩
          exact absurd hc h2
  · unfold flashPolicyRespond
    by_cases h1 : inbound.length < 20
    · rw [if_pos h1]
      constructor
      · intro _
        rintro ⟨hl, _⟩
        omega
      · intro _
        rfl
    · rw [if_neg h1]
      by_cases h2 : String.mk (inbound.take 20) = policyRequestLit
      · rw [if_pos h2]
        constructor
        · intro h
          exact Option.noConfusion h
        · intro hn
          exact absurd ⟨by omega, h2⟩ hn
      · rw [if_neg h2]
        constructor
        · intro _
          rintro ⟨_, hc⟩
          exact h2 hc
        · intro _
          rfl
  · show policyPreamble ++
        (os.foldl (fun buf origin =>
          if (goSplit2 origin ':').length < 1 then buf
          else buf ++ allowAccessLine origin) "") ++ "</cross-domain-policy>\n" = _
    rw [foldl_policy_append allowAccessLine os ""]
    have hmap : ∀ l : List String, l.map allowAccessLine = l.map specAllowElement := by
      intro l
      induction l with
      | nil => rfl
      | cons a t ih => simp [allowAccessLine_eq_spec, ih]
    rw [hmap os]
    rfl
  · show policyPreamble ++ "" ++ "</cross-domain-policy>\n" = _
    rw [String.append_empty]

/-- C10: a request whose Origin header fails to parse as a URL or
parses with an empty host is answered 401 regardless of the allow-list,
even one containing the universal entry. -/
theorem claim10_unparseable_origin (origins : Origins) (parseUrl : String → Option Url)
    (resource : String) (sessions : List (SessionID × Conn)) (newConnResult : Except Unit Conn)
    (req : Request) (o : String) (ho : req.origin = some o)
    (hbad : parseUrl o = none ∨ ∃ u, parseUrl o = some u ∧ u.host = "") :
    handle origins parseUrl resource sessions newConnResult req = ⟨[], .wrote 401⟩ := by
  apply handle_gate_rejected origins parseUrl resource sessions newConnResult req o ho
  rw [verifyOrigin_eq_false_of_bad origins parseUrl o hbad]

/-- Witness for C10: origin value that does not parse, allow-list
containing the universal entry. -/
theorem claim10_unparseable_origin_witness :
    handle (some ["*:*"]) (fun _ => none) "websocket" [] (.ok 0)
        ⟨"GET", "/socket.io/websocket", some "null"⟩ = ⟨[], .wrote 401⟩ :=
  claim10_unparseable_origin (some ["*:*"]) (fun _ => none) "websocket" [] (.ok 0)
    ⟨"GET", "/socket.io/websocket", some "null"⟩ "null" rfl (Or.inl rfl)

end Socketio
